import Mathlib

/-!
Verification development for the ecommerce analytics engine: a shallow
embedding of the attribute-extraction pass (`attribute_extraction.py`), the
service layer (`api/services.py`) and the aggregation computations
(`attribute_analysis.py`, `supplier_incidents.py`), together with theorems
about the behaviour the specification describes.

Text is modelled as `List Char`; the Python regular expressions are embedded
as explicit backtracking matchers with `re.search` (leftmost-position)
semantics; Python dicts are association lists.
-/

namespace ECommerce

/-! ### Character classes (Python `re` classes restricted to the alphabet the
repository works with: ASCII plus the Romanian diacritics). -/

/-- Python `\s` (ASCII whitespace). -/
def isSpaceChar (c : Char) : Bool :=
  c = ' ' || c = '\t' || c = '\n' || c = '\r' || c = '\x0b' || c = '\x0c'

/-- The Romanian diacritic letters appearing in the repository's data. -/
def romanianLetters : List Char :=
  ['ă', 'â', 'î', 'ș', 'ț', 'Ă', 'Â', 'Î', 'Ș', 'Ț']

/-- Python `\w` on the working alphabet. -/
def isWordChar (c : Char) : Bool :=
  c.isAlphanum || c = '_' || romanianLetters.contains c

/-- `[\w-]`, the character class of the collection capture group. -/
def isWordHyphen (c : Char) : Bool := isWordChar c || c = '-'

def isHexChar (c : Char) : Bool :=
  c.isDigit || ('a' ≤ c && c ≤ 'f') || ('A' ≤ c && c ≤ 'F')

def isUpperAZ (c : Char) : Bool := 'A' ≤ c && c ≤ 'Z'

/-- Python `str.lower` on the working alphabet. -/
def pyLower (c : Char) : Char :=
  if c = 'Ă' then 'ă' else if c = 'Â' then 'â' else if c = 'Î' then 'î'
  else if c = 'Ș' then 'ș' else if c = 'Ț' then 'ț' else c.toLower

/-- Python `str.upper` on the working alphabet. -/
def pyUpper (c : Char) : Char :=
  if c = 'ă' then 'Ă' else if c = 'â' then 'Â' else if c = 'î' then 'Î'
  else if c = 'ș' then 'Ș' else if c = 'ț' then 'Ț' else c.toUpper

/-- Python `str.strip()`. -/
def pyStrip (l : List Char) : List Char :=
  ((l.dropWhile isSpaceChar).reverse.dropWhile isSpaceChar).reverse

/-! ### Generic search machinery (`re.search` semantics) -/

/-- Try the pattern matcher `f` at every position of the text, leftmost first
(`re.search`); the final empty suffix is also a candidate position. -/
def searchSuffix (f : List Char → Option α) : List Char → Option α
  | [] => f []
  | c :: rest =>
    match f (c :: rest) with
    | some r => some r
    | none => searchSuffix f rest

/-- Like `searchSuffix` but the matcher also sees the character preceding the
current position (needed for a leading `\b`). -/
def searchWithPrev (f : Option Char → List Char → Option α) :
    Option Char → List Char → Option α
  | prev, [] => f prev []
  | prev, c :: rest =>
    match f prev (c :: rest) with
    | some r => some r
    | none => searchWithPrev f (some c) rest

/-- `\b` when the following position starts with a word character:
true iff the preceding character is absent or not a word character. -/
def wordBoundaryBefore (prev : Option Char) : Bool :=
  match prev with
  | none => true
  | some c => !isWordChar c

/-- `\b` directly after a word character: the rest of the text must be empty
or start with a non-word character. -/
def notWordStart : List Char → Bool
  | [] => true
  | c :: _ => !isWordChar c

/-- Greedy bounded repetition with backtracking: try each length in `lens`
(given greediest first) of characters satisfying `p`, keeping the first length
whose remaining text satisfies `tail`; returns the consumed run. -/
def tryLens (lens : List Nat) (p : Char → Bool) (tail : List Char → Bool)
    (s : List Char) : Option (List Char) :=
  match lens with
  | [] => none
  | n :: ns =>
    if (s.take n).length = n ∧ (s.take n).all p ∧ tail (s.drop n) then
      some (s.take n)
    else tryLens ns p tail s

/-- Case-insensitive literal match (the literal is given lower-case);
returns the remaining text. -/
def matchLitCI : List Char → List Char → Option (List Char)
  | [], s => some s
  | _ :: _, [] => none
  | l :: ls, c :: cs => if pyLower c = l then matchLitCI ls cs else none

/-! ### The pattern library (`attribute_extraction.py` lines 13–83) -/

/-- Tail of `VOLUME_PATTERN` after the digits: `\s?(ml)\b`, case-insensitive. -/
def mlTail (s : List Char) : Bool :=
  let body : List Char → Bool := fun t =>
    match t with
    | m :: l :: rest => pyLower m = 'm' && pyLower l = 'l' && notWordStart rest
    | _ => false
  match s with
  | c :: rest => if isSpaceChar c then body rest else body (c :: rest)
  | [] => false

/-- `VOLUME_PATTERN = (\d{1,3})\s?(ml)\b` (IGNORECASE), group 1, at a position. -/
def matchVolumeAt (s : List Char) : Option (List Char) :=
  tryLens [3, 2, 1] Char.isDigit mlTail s

def searchVolume (t : List Char) : Option (List Char) := searchSuffix matchVolumeAt t

/-- Tail of `LENGTH_PATTERN` after the digits: `\s?(mm)\b`, case-insensitive. -/
def mmTail (s : List Char) : Bool :=
  let body : List Char → Bool := fun t =>
    match t with
    | m :: l :: rest => pyLower m = 'm' && pyLower l = 'm' && notWordStart rest
    | _ => false
  match s with
  | c :: rest => if isSpaceChar c then body rest else body (c :: rest)
  | [] => false

/-- `LENGTH_PATTERN = (\d{2,4})\s?(mm)\b` (IGNORECASE), group 1, at a position. -/
def matchLengthAt (s : List Char) : Option (List Char) :=
  tryLens [4, 3, 2] Char.isDigit mmTail s

def searchLength (t : List Char) : Option (List Char) := searchSuffix matchLengthAt t

/-- Tail of `STRENGTH_PATTERN` after the digits: `\s?%`. -/
def pctTail (s : List Char) : Bool :=
  let body : List Char → Bool := fun t =>
    match t with
    | c :: _ => c = '%'
    | [] => false
  match s with
  | c :: rest => if isSpaceChar c then body rest else body (c :: rest)
  | [] => false

/-- `STRENGTH_PATTERN = (\d{2,3})\s?%`, group 1, at a position. -/
def matchStrengthAt (s : List Char) : Option (List Char) :=
  tryLens [3, 2] Char.isDigit pctTail s

def searchStrength (t : List Char) : Option (List Char) := searchSuffix matchStrengthAt t

/-- First half of `GRIT_PATTERN`: `n` digits, then `/`, then 2–3 digits and a
trailing `\b`; returns the full `dd/dd` capture. -/
def gritFirst (n : Nat) (s : List Char) : Option (List Char) :=
  if (s.take n).length = n ∧ (s.take n).all Char.isDigit then
    match s.drop n with
    | '/' :: r =>
      match tryLens [3, 2] Char.isDigit notWordStart r with
      | some d2 => some (s.take n ++ '/' :: d2)
      | none => none
    | _ => none
  else none

/-- `GRIT_PATTERN = \b(\d{2,3}/\d{2,3})\b`, group 1, at a position with the
preceding character supplied for the leading `\b`. -/
def matchGritAt (prev : Option Char) (s : List Char) : Option (List Char) :=
  if wordBoundaryBefore prev then
    match gritFirst 3 s with
    | some r => some r
    | none => gritFirst 2 s
  else none

def searchGrit (t : List Char) : Option (List Char) := searchWithPrev matchGritAt none t

/-- First alternative of `SHADE_PATTERN`: `#[0-9a-fA-F]{2,4}\b`. -/
def shadeAlt1 (s : List Char) : Option (List Char) :=
  match s with
  | '#' :: r =>
    match tryLens [4, 3, 2] isHexChar notWordStart r with
    | some h => some ('#' :: h)
    | none => none
  | _ => none

/-- Second alternative of `SHADE_PATTERN` with `n` upper-case letters:
`[A-Z]{n}\d{2,3}\b`. -/
def shadeLetters (n : Nat) (s : List Char) : Option (List Char) :=
  if (s.take n).length = n ∧ (s.take n).all isUpperAZ then
    match tryLens [3, 2] Char.isDigit notWordStart (s.drop n) with
    | some ds => some (s.take n ++ ds)
    | none => none
  else none

/-- `SHADE_PATTERN = (#[0-9a-fA-F]{2,4}|[A-Z]{1,2}\d{2,3})\b`, group 0, at a
position (alternatives in regex order, letters greedy). -/
def matchShadeAt (s : List Char) : Option (List Char) :=
  match shadeAlt1 s with
  | some r => some r
  | none =>
    match shadeLetters 2 s with
    | some r => some r
    | none => shadeLetters 1 s

def searchShade (t : List Char) : Option (List Char) := searchSuffix matchShadeAt t

/-- Terminator of `COLLECTION_PATTERN`'s capture group: `(?:\s+\d|\s*$)`. -/
def collTerm (s : List Char) : Bool :=
  (match s with
   | c :: _ =>
     isSpaceChar c &&
       (match s.dropWhile isSpaceChar with
        | d :: _ => d.isDigit
        | [] => false)
   | [] => false)
  || s.all isSpaceChar

/-- Lazy extension of the collection capture `[\w-]{3,30}?`: `acc` holds the
(reversed) characters consumed so far, `fuel` the extensions still allowed. -/
def collLazy : Nat → List Char → List Char → Option (List Char)
  | 0, acc, s => if collTerm s then some acc.reverse else none
  | f + 1, acc, s =>
    if collTerm s then some acc.reverse
    else
      match s with
      | c :: r => if isWordHyphen c then collLazy f (c :: acc) r else none
      | [] => none

/-- The capture group `([\w-]{3,30}?)` followed by its terminator: at least
three `[\w-]` characters, then lazily extended (30 total at most). -/
def collGroup (s : List Char) : Option (List Char) :=
  match s with
  | a :: b :: c :: r =>
    if isWordHyphen a && isWordHyphen b && isWordHyphen c then
      collLazy 27 [c, b, a] r
    else none
  | _ => none

/-- `COLLECTION_PATTERN = colect(ia|iei)\s+([\w-]{3,30}?)(?:\s+\d|\s*$)`
(IGNORECASE), group 2, at a position. -/
def matchCollectionAt (s : List Char) : Option (List Char) :=
  match matchLitCI ['c', 'o', 'l', 'e', 'c', 't'] s with
  | none => none
  | some r1 =>
    match
      (match matchLitCI ['i', 'a'] r1 with
       | some r => some r
       | none => matchLitCI ['i', 'e', 'i'] r1) with
    | none => none
    | some r2 =>
      match r2 with
      | c :: _ =>
        if isSpaceChar c then collGroup (r2.dropWhile isSpaceChar) else none
      | [] => none

def searchCollection (t : List Char) : Option (List Char) :=
  searchSuffix matchCollectionAt t

/-! ### Keyword lists (`attribute_extraction.py` lines 19–82) -/

def FINISH_KEYWORDS : List String :=
  ["mat", "matte", "gloss", "lucios", "glitter", "shimmer", "reflectiv"]

def CURING_KEYWORDS : List String := ["uv/led", "uv led", "uv", "led"]

def LIQUID_TYPES : List String :=
  ["cleaner", "remover", "aceton", "slip solution", "degresant", "primer"]

def SCENT_KEYWORDS : List String :=
  ["lavanda", "lavandă", "capsuni", "căpșuni", "vanilie", "cocos", "trandafir"]

def MATERIAL_KEYWORDS : List String :=
  ["inox", "otel", "oțel", "carbon", "abs", "plastic"]

def SHAPE_KEYWORDS : List String :=
  ["oval", "banană", "banana", "drept", "straight", "half-moon", "semilună"]

def COLOR_KEYWORDS : List String :=
  ["alb", "negru", "rosu", "roșu", "roz", "nude", "albastru", "verde", "mov",
   "galben", "portocaliu", "auriu", "argintiu"]

/-- Python substring test `pat in text`. -/
def isSubL (pat : List Char) : List Char → Bool
  | [] => pat.isEmpty
  | c :: rest => pat.isPrefixOf (c :: rest) || isSubL pat rest

/-- `_first_keyword`: the first keyword in LIST order that occurs as a
substring of the text. -/
def firstKeyword (text : List Char) : List String → Option String
  | [] => none
  | k :: ks => if isSubL k.toList text then some k else firstKeyword text ks

/-! ### `extract_attributes` -/

/-- A value stored in a product document: a Python float or string. -/
inductive AttrValue where
  | num (q : ℚ)
  | str (s : String)
deriving DecidableEq, Repr

/-- `float(...)` applied to a captured digit string. -/
def digitsToQ (ds : List Char) : ℚ :=
  ((ds.foldl (fun n c => 10 * n + (c.toNat - '0'.toNat)) 0 : Nat) : ℚ)

/-- `" ".join(filter(None, [name or "", description or ""]))`. -/
def haystackOf (name : String) (description : Option String) : List Char :=
  (String.intercalate " " (([name, description.getD ""]).filter (· ≠ ""))).toList

/-- The case-folded haystack (`haystack.lower()`). -/
def haystackLowerOf (name : String) (description : Option String) : List Char :=
  (haystackOf name description).map pyLower

/-- `curing.replace(" ", "").upper()`. -/
def curingNormalize (k : String) : String :=
  String.mk ((k.toList.filter (· ≠ ' ')).map pyUpper)

/-- A conditional dict entry: present exactly when the matcher fired. -/
def optEntry (key : String) (v : Option AttrValue) : List (String × AttrValue) :=
  match v with
  | some x => [(key, x)]
  | none => []

/-- Dict lookup (`d[k]` / `d.get(k)`), first matching key. -/
def dictGet {α : Type} (k : String) : List (String × α) → Option α
  | [] => none
  | (k', v) :: rest => if k = k' then some v else dictGet k rest

/-- `extract_attributes(name, description)`: the sparse `attr_*` mapping, in
the source's insertion order. -/
def extractAttributes (name : String) (description : Option String) :
    List (String × AttrValue) :=
  optEntry "attr_volume_ml"
      ((searchVolume (haystackOf name description)).map (fun d => .num (digitsToQ d))) ++
  (optEntry "attr_grit"
      ((searchGrit (haystackOf name description)).map (fun g => .str (String.mk g))) ++
  (optEntry "attr_shade_code"
      ((searchShade (haystackOf name description)).map
        (fun m => .str (String.mk (m.map pyUpper)))) ++
  (optEntry "attr_finish"
      ((firstKeyword (haystackLowerOf name description) FINISH_KEYWORDS).map .str) ++
  (optEntry "attr_curing_type"
      ((firstKeyword (haystackLowerOf name description) CURING_KEYWORDS).map
        (fun k => .str (curingNormalize k))) ++
  (optEntry "attr_liquid_type"
      ((firstKeyword (haystackLowerOf name description) LIQUID_TYPES).map .str) ++
  (optEntry "attr_scent"
      ((firstKeyword (haystackLowerOf name description) SCENT_KEYWORDS).map .str) ++
  (optEntry "attr_strength_percent"
      ((searchStrength (haystackOf name description)).map (fun d => .num (digitsToQ d))) ++
  (optEntry "attr_length_mm"
      ((searchLength (haystackOf name description)).map (fun d => .num (digitsToQ d))) ++
  (optEntry "attr_material"
      ((firstKeyword (haystackLowerOf name description) MATERIAL_KEYWORDS).map .str) ++
  (optEntry "attr_shape"
      ((firstKeyword (haystackLowerOf name description) SHAPE_KEYWORDS).map .str) ++
  (optEntry "attr_color_name"
      ((firstKeyword (haystackLowerOf name description) COLOR_KEYWORDS).map .str) ++
  optEntry "attr_collection"
      ((searchCollection (haystackOf name description)).map
        (fun g => .str (String.mk (pyStrip g)))))))))))))))


/-! ### The fixed key set of the extractor -/

def EXTRACT_KEYS : List String :=
  ["attr_volume_ml", "attr_grit", "attr_shade_code", "attr_finish",
   "attr_curing_type", "attr_liquid_type", "attr_scent", "attr_strength_percent",
   "attr_length_mm", "attr_material", "attr_shape", "attr_color_name",
   "attr_collection"]

/-- The numeric attribute keys (stored as Python floats). -/
def NUM_KEYS : List String := ["attr_volume_ml", "attr_strength_percent", "attr_length_mm"]

/-- The per-key matching pipeline of `extract_attributes`: the pattern or
keyword search that decides whether key `k` is emitted, and with which value;
`none` both for a failed match and for a key outside the fixed set. -/
def matcherOutcome (k : String) (n : String) (d : Option String) : Option AttrValue :=
  if k = "attr_volume_ml" then
    (searchVolume (haystackOf n d)).map (fun ds => .num (digitsToQ ds))
  else if k = "attr_grit" then
    (searchGrit (haystackOf n d)).map (fun g => .str (String.mk g))
  else if k = "attr_shade_code" then
    (searchShade (haystackOf n d)).map (fun m => .str (String.mk (m.map pyUpper)))
  else if k = "attr_finish" then
    (firstKeyword (haystackLowerOf n d) FINISH_KEYWORDS).map .str
  else if k = "attr_curing_type" then
    (firstKeyword (haystackLowerOf n d) CURING_KEYWORDS).map
      (fun kw => .str (curingNormalize kw))
  else if k = "attr_liquid_type" then
    (firstKeyword (haystackLowerOf n d) LIQUID_TYPES).map .str
  else if k = "attr_scent" then
    (firstKeyword (haystackLowerOf n d) SCENT_KEYWORDS).map .str
  else if k = "attr_strength_percent" then
    (searchStrength (haystackOf n d)).map (fun ds => .num (digitsToQ ds))
  else if k = "attr_length_mm" then
    (searchLength (haystackOf n d)).map (fun ds => .num (digitsToQ ds))
  else if k = "attr_material" then
    (firstKeyword (haystackLowerOf n d) MATERIAL_KEYWORDS).map .str
  else if k = "attr_shape" then
    (firstKeyword (haystackLowerOf n d) SHAPE_KEYWORDS).map .str
  else if k = "attr_color_name" then
    (firstKeyword (haystackLowerOf n d) COLOR_KEYWORDS).map .str
  else if k = "attr_collection" then
    (searchCollection (haystackOf n d)).map (fun g => .str (String.mk (pyStrip g)))
  else none

/-! ### Keyword precedence (claims about `_first_keyword`) -/

/-- Index of the first occurrence of `pat` as a substring of the text
(Python `str.find`), if it occurs at all. -/
def firstIdx (pat : List Char) : List Char → Option Nat
  | [] => if pat.isEmpty then some 0 else none
  | c :: rest =>
    if pat.isPrefixOf (c :: rest) then some 0
    else (firstIdx pat rest).map (· + 1)

/-- `k` is the first keyword of the fixed list `kws` (in LIST order) that
occurs as a substring of the text `t`. -/
def FirstListKeyword (kws : List String) (t : List Char) (k : String) : Prop :=
  ∃ pre post, kws = pre ++ k :: post ∧ isSubL k.toList t = true ∧
    ∀ k' ∈ pre, isSubL k'.toList t = false

/-! ### Supplier incidents (`supplier_incidents.py`, `api/services.py`) -/

/-- The `SupplierIncident` dataclass. -/
structure SupplierIncident where
  incident_id : String
  supplier_id : String
  supplier_name : String
  date_reported : String
  sku : Option String
  product_type : Option String
  category_main : Option String
  qty_total_in_shipment : Int
  qty_damaged : Int
  damage_type : List String
  shipment_id : Option String
  transport_company : Option String
  root_cause_guess : Option String
  batch_id : Option String
  packaging_primary : Option String
  packaging_secondary : Option String
  packaging_cushioning : Option String
  comment : Option String
  created_at : String
deriving DecidableEq, Repr

/-- The `damage_type` value of an incoming payload: a string, a list, or the
key being absent. -/
inductive DamageTypeField where
  | absent
  | str (s : String)
  | list (l : List String)
deriving DecidableEq, Repr

/-- An incoming incident payload (`create_incident`'s `body` dict). -/
structure IncidentInput where
  incident_id : Option String
  supplier_id : String
  supplier_name : String
  date_reported : String
  sku : Option String
  product_type : Option String
  category_main : Option String
  qty_total_in_shipment : Int
  qty_damaged : Int
  damage_type : DamageTypeField
  shipment_id : Option String
  transport_company : Option String
  root_cause_guess : Option String
  batch_id : Option String
  packaging_primary : Option String
  packaging_secondary : Option String
  packaging_cushioning : Option String
  comment : Option String
deriving DecidableEq, Repr

/-- `if isinstance(damage_type, str): body["damage_type"] = [damage_type]`;
an absent key falls back to the dataclass default `[]`. -/
def normalizeDamageType : DamageTypeField → List String
  | .absent => []
  | .str s => [s]
  | .list l => l

/-- The incident store, modelled as the list of documents keyed by id;
`client.index` replaces the document with the same id. -/
def storePut (store : List SupplierIncident) (inc : SupplierIncident) :
    List SupplierIncident :=
  store.filter (fun i => i.incident_id ≠ inc.incident_id) ++ [inc]

/-- `if not body.get("incident_id"): body["incident_id"] = f"INC-{...}"`
(both a missing key and a falsy empty string trigger generation). -/
def resolvedId (p : IncidentInput) (genId : String) : String :=
  match p.incident_id with
  | some s => if s = "" then genId else s
  | none => genId

/-- The `SupplierIncident(**body)` constructed for an accepted payload. -/
def builtIncident (p : IncidentInput) (genId : String) (now : String) :
    SupplierIncident :=
  { incident_id := resolvedId p genId
    supplier_id := p.supplier_id
    supplier_name := p.supplier_name
    date_reported := p.date_reported
    sku := p.sku
    product_type := p.product_type
    category_main := p.category_main
    qty_total_in_shipment := p.qty_total_in_shipment
    qty_damaged := p.qty_damaged
    damage_type := normalizeDamageType p.damage_type
    shipment_id := p.shipment_id
    transport_company := p.transport_company
    root_cause_guess := p.root_cause_guess
    batch_id := p.batch_id
    packaging_primary := p.packaging_primary
    packaging_secondary := p.packaging_secondary
    packaging_cushioning := p.packaging_cushioning
    comment := p.comment
    created_at := now }

/-- `create_incident(payload)`: the quantity validation (raised before any
store write), then the single store write of the constructed record. `genId`
stands for the fresh `INC-{uuid4().hex[:12]}` and `now` for
`datetime.utcnow()`; returns the response or the raised error, together with
the resulting store state. -/
def createIncident (p : IncidentInput) (genId : String) (now : String)
    (store : List SupplierIncident) :
    Except String String × List SupplierIncident :=
  if p.qty_damaged > p.qty_total_in_shipment then
    (.error "qty_damaged cannot exceed qty_total_in_shipment", store)
  else
    (.ok (builtIncident p genId now).incident_id,
      storePut store (builtIncident p genId now))

/-- The spec's over-damaged example payload: 150 damaged of 100 shipped. -/
def c2ExcessPayload : IncidentInput :=
  { incident_id := none, supplier_id := "SUP-1", supplier_name := "F",
    date_reported := "2025-05-10", sku := some "SKU-1",
    product_type := some "nail_polish", category_main := none,
    qty_total_in_shipment := 100, qty_damaged := 150,
    damage_type := .list ["bottles_broken"], shipment_id := none,
    transport_company := none, root_cause_guess := none, batch_id := none,
    packaging_primary := none, packaging_secondary := none,
    packaging_cushioning := none, comment := none }

/-- A valid payload carrying an empty damage-type list (the schema default). -/
def c9EmptyPayload : IncidentInput :=
  { incident_id := some "INC-1", supplier_id := "SUP-1", supplier_name := "F",
    date_reported := "2025-05-10", sku := none, product_type := none,
    category_main := none, qty_total_in_shipment := 100, qty_damaged := 0,
    damage_type := .list [], shipment_id := none, transport_company := none,
    root_cause_guess := none, batch_id := none, packaging_primary := none,
    packaging_secondary := none, packaging_cushioning := none,
    comment := none }

/-- A valid payload submitting a single damage-type string. -/
def c9StringPayload : IncidentInput :=
  { incident_id := some "INC-2", supplier_id := "SUP-1", supplier_name := "F",
    date_reported := "2025-05-10", sku := none, product_type := none,
    category_main := none, qty_total_in_shipment := 100, qty_damaged := 5,
    damage_type := .str "leakage", shipment_id := none,
    transport_company := none, root_cause_guess := none, batch_id := none,
    packaging_primary := none, packaging_secondary := none,
    packaging_cushioning := none, comment := none }

/-! ### Aggregations

Modelled from the spec: the Store Query Interface contract (term-bucket
aggregation, sum metrics, the derived-ratio bucket script
`total == 0 ? 0 : damaged / total`, calendar-month date histogram,
exists/term filters). The query bodies are taken from the source; the store's
evaluation of them is not part of the repository, so buckets are modelled as
grouping by distinct key (the fixed bucket caps and count-ordering of the
`terms` aggregation do not affect per-bucket values and are omitted). -/

/-- A stored incident projected to the aggregation-relevant fields, with the
calendar month of `date_reported` precomputed as the histogram bucket key. -/
structure IncidentRow where
  supplier_id : String
  product_type : String
  month : String
  qty_total : ℕ
  qty_damaged : ℕ
deriving DecidableEq, Repr

/-- A well-formed sample incident row (used to instantiate theorems). -/
def c1SampleRow : IncidentRow :=
  { supplier_id := "S1", product_type := "polish", month := "2025-05",
    qty_total := 100, qty_damaged := 5 }

def sumTotal (l : List IncidentRow) : ℕ := (l.map (·.qty_total)).sum

def sumDamaged (l : List IncidentRow) : ℕ := (l.map (·.qty_damaged)).sum

/-- The bucket script `params.total == 0 ? 0 : params.damaged / params.total`
over a bucket's rows. -/
def bucketDamageRate (l : List IncidentRow) : ℚ :=
  if sumTotal l = 0 then 0 else (sumDamaged l : ℚ) / (sumTotal l : ℚ)

/-- One row of the `damage_rate_per_supplier`-style results. -/
structure KPIRow where
  key : String
  product_type : Option String
  damage_rate : ℚ
  qty_total : ℕ
  qty_damaged : ℕ
deriving DecidableEq, Repr

/-- `damage_rate_per_supplier(product_type)`: optional term filter on
product type, then one bucket per supplier id. -/
def damageRatePerSupplier (ptype : Option String) (incs : List IncidentRow) :
    List KPIRow :=
  let filtered : List IncidentRow :=
    match ptype with
    | some t => incs.filter (fun i => i.product_type = t)
    | none => incs
  ((filtered.map (·.supplier_id)).dedup).map (fun k =>
    let b := filtered.filter (fun i => i.supplier_id = k)
    { key := k, product_type := none, damage_rate := bucketDamageRate b
      qty_total := sumTotal b, qty_damaged := sumDamaged b })

/-- `damage_rate_per_supplier_and_type()`: nested supplier/product-type
buckets, flattened. -/
def damageRatePerSupplierAndType (incs : List IncidentRow) : List KPIRow :=
  (((incs.map (fun i : IncidentRow => (i.supplier_id, i.product_type))).dedup).map (fun k =>
    let b := incs.filter (fun i => i.supplier_id = k.1 ∧ i.product_type = k.2)
    { key := k.1, product_type := some k.2, damage_rate := bucketDamageRate b
      qty_total := sumTotal b, qty_damaged := sumDamaged b }))

/-- `monthly_damage_rate_for_supplier(supplier_id)`: term filter on the
supplier, then one bucket per calendar month. -/
def monthlyDamageRateForSupplier (sid : String) (incs : List IncidentRow) :
    List KPIRow :=
  let filtered := incs.filter (fun i => i.supplier_id = sid)
  ((filtered.map (·.month)).dedup).map (fun m =>
    let b := filtered.filter (fun i => i.month = m)
    { key := m, product_type := none, damage_rate := bucketDamageRate b
      qty_total := sumTotal b, qty_damaged := sumDamaged b })

/-- A product document projected to the fields the analytics use:
`attrs` is the set of `attr_*` fields present (the `exists` filter). -/
structure ProductRow where
  sku : String
  category_main : String
  price_final : Option ℚ
  attrs : List String
deriving DecidableEq, Repr

/-- One row of `attribute_coverage_by_category`'s results. -/
structure CoverageRow where
  category_main : String
  total_skus : ℕ
  with_attribute : ℕ
  coverage_ratio : ℚ
deriving DecidableEq, Repr

/-- `attribute_coverage_by_category(attribute_field)`: one bucket per
category; `coverage = (with_attr / total) if total else 0.0` is the source's
Python ratio computation. -/
def attributeCoverageByCategory (attr : String) (prods : List ProductRow) :
    List CoverageRow :=
  ((prods.map (·.category_main)).dedup).map (fun c =>
    let b := prods.filter (fun p => p.category_main = c)
    let total := b.length
    let withAttr := (b.filter (fun p => attr ∈ p.attrs)).length
    { category_main := c, total_skus := total, with_attribute := withAttr
      coverage_ratio := if total = 0 then 0 else (withAttr : ℚ) / (total : ℚ) })

/-- The sort contract of `missing_attribute_fix_list`: price descending with
missing prices last (for the comparison a missing price is `⊥`), ties broken
by SKU ascending. -/
def fixListLE (p q : ProductRow) : Prop :=
  (priceKey q < priceKey p) ∨ (priceKey q = priceKey p ∧ p.sku ≤ q.sku)
where
  priceKey (p : ProductRow) : WithBot ℚ :=
    match p.price_final with
    | some x => (x : WithBot ℚ)
    | none => ⊥

instance : DecidableRel fixListLE := fun p q => by
  unfold fixListLE; infer_instance

/-- `missing_attribute_fix_list(attribute_field, category_main_filter, size)`:
term filter on the category, `must_not exists` on the attribute, sorted by
the contract above, truncated to `size`. -/
def missingAttributeFixList (attr cat : String) (size : ℕ)
    (prods : List ProductRow) : List ProductRow :=
  ((prods.filter (fun p => p.category_main = cat ∧ attr ∉ p.attrs)).mergeSort
    (fun p q => decide (fixListLE p q))).take size

/-- A sample product store: two `Gel` products lacking `attr_x` (one without
a price) and one product of another category. -/
def c7SampleProducts : List ProductRow :=
  [{ sku := "B", category_main := "Gel", price_final := some 10, attrs := [] },
   { sku := "A", category_main := "Gel", price_final := none, attrs := [] },
   { sku := "C", category_main := "Other", price_final := some 5, attrs := [] }]

/-! ### Product upsert (`api/services.py upsert_product`) -/

/-- The product payload as `upsert_product` receives it: the pydantic model
guarantees `sku` and `name`; the remaining top-level entries (optional and
extra fields) are carried as an association list with possibly-`None` values;
`attributes` is the caller-supplied override dict. -/
structure ProductPayload where
  sku : String
  name : String
  description_html : Option String
  description_short : Option String
  other : List (String × Option AttrValue)
  attributes : List (String × Option AttrValue)

/-- Keep the non-`None` entries of a dict (`{k: v ... if v is not None}`). -/
def dropNone (l : List (String × Option AttrValue)) : List (String × AttrValue) :=
  l.filterMap (fun kv => kv.2.map (fun v => (kv.1, v)))

/-- A single Python dict assignment `d[k] = v`: replace in place, else append. -/
def setKey (d : List (String × AttrValue)) (k : String) (v : AttrValue) :
    List (String × AttrValue) :=
  if (dictGet k d).isSome then
    d.map (fun kv => if kv.1 = k then (k, v) else kv)
  else d ++ [(k, v)]

/-- Python `d1.update(d2)`. -/
def dictUpdate (d1 d2 : List (String × AttrValue)) : List (String × AttrValue) :=
  d2.foldl (fun acc kv => setKey acc kv.1 kv.2) d1

/-- The top-level items of the payload except `attributes` (which
`upsert_product` pops from `base_doc`). -/
def payloadItems (p : ProductPayload) : List (String × Option AttrValue) :=
  ("sku", some (.str p.sku)) :: ("name", some (.str p.name)) ::
  ("description_html", p.description_html.map .str) ::
  ("description_short", p.description_short.map .str) :: p.other

/-- `base_doc.get("description_html") or base_doc.get("description_short")`. -/
def descriptionOf (p : ProductPayload) : Option String :=
  match p.description_html with
  | some h => if h = "" then p.description_short else some h
  | none => p.description_short

/-- The caller-supplied overrides with `None` values dropped. -/
def explicitAttrsOf (p : ProductPayload) : List (String × AttrValue) :=
  dropNone p.attributes

abbrev ProductDoc := List (String × AttrValue)

/-- `upsert_product(payload)`: derive attributes from the text fields, merge
the explicit overrides over them, merge the result over the base document,
stamp `updated_at`, write the document under the SKU and return the response.
`now` stands for `datetime.utcnow().isoformat()`. -/
def upsertProduct (p : ProductPayload) (now : String)
    (store : List (String × ProductDoc)) :
    List (String × ProductDoc) × (String × ProductDoc) :=
  let base_doc := dropNone (payloadItems p)
  let derived := extractAttributes p.name (descriptionOf p)
  let merged := dictUpdate derived (explicitAttrsOf p)
  let doc := dictUpdate (dictUpdate base_doc merged) [("updated_at", .str now)]
  let store2 := store.filter (fun kv => kv.1 ≠ p.sku) ++ [(p.sku, doc)]
  (store2, (p.sku, merged))

/-- A sample payload whose text derives `attr_volume_ml = 15.0` while the
caller overrides it to `99`. -/
def c6Payload : ProductPayload :=
  { sku := "SKU-1", name := "15 ml", description_html := none,
    description_short := none, other := [],
    attributes := [("attr_volume_ml", some (.num 99))] }

/-! ### Dictionary lemmas -/

theorem dictGet_append {α : Type} (k : String) (l1 l2 : List (String × α)) :
    dictGet k (l1 ++ l2) = (dictGet k l1).or (dictGet k l2) := by
  induction l1 with
  | nil => simp [dictGet]
  | cons kv rest ih =>
    obtain ⟨k', v⟩ := kv
    by_cases h : k = k' <;> simp [dictGet, h, ih]

theorem dictGet_optEntry (k k' : String) (v : Option AttrValue) :
    dictGet k (optEntry k' v) = if k = k' then v else none := by
  cases v <;> by_cases h : k = k' <;> simp [optEntry, dictGet, h]

theorem mem_optEntry {kv : String × AttrValue} {k : String} {o : Option AttrValue}
    (h : kv ∈ optEntry k o) : kv.1 = k ∧ o = some kv.2 := by
  cases o with
  | none => simp [optEntry] at h
  | some x => simp [optEntry] at h; simp [h]

/-! ### Per-key characterizations of `extract_attributes` -/

theorem extract_volume (n : String) (d : Option String) :
    dictGet "attr_volume_ml" (extractAttributes n d) =
      (searchVolume (haystackOf n d)).map (fun ds => .num (digitsToQ ds)) := by
  simp [extractAttributes, dictGet_append, dictGet_optEntry, Option.or_none]

theorem extract_grit (n : String) (d : Option String) :
    dictGet "attr_grit" (extractAttributes n d) =
      (searchGrit (haystackOf n d)).map (fun g => .str (String.mk g)) := by
  simp [extractAttributes, dictGet_append, dictGet_optEntry, Option.or_none]

theorem extract_shade (n : String) (d : Option String) :
    dictGet "attr_shade_code" (extractAttributes n d) =
      (searchShade (haystackOf n d)).map (fun m => .str (String.mk (m.map pyUpper))) := by
  simp [extractAttributes, dictGet_append, dictGet_optEntry, Option.or_none]

theorem extract_finish (n : String) (d : Option String) :
    dictGet "attr_finish" (extractAttributes n d) =
      (firstKeyword (haystackLowerOf n d) FINISH_KEYWORDS).map .str := by
  simp [extractAttributes, dictGet_append, dictGet_optEntry, Option.or_none]

theorem extract_curing (n : String) (d : Option String) :
    dictGet "attr_curing_type" (extractAttributes n d) =
      (firstKeyword (haystackLowerOf n d) CURING_KEYWORDS).map
        (fun k => .str (curingNormalize k)) := by
  simp [extractAttributes, dictGet_append, dictGet_optEntry, Option.or_none]

theorem extract_liquid (n : String) (d : Option String) :
    dictGet "attr_liquid_type" (extractAttributes n d) =
      (firstKeyword (haystackLowerOf n d) LIQUID_TYPES).map .str := by
  simp [extractAttributes, dictGet_append, dictGet_optEntry, Option.or_none]

theorem extract_scent (n : String) (d : Option String) :
    dictGet "attr_scent" (extractAttributes n d) =
      (firstKeyword (haystackLowerOf n d) SCENT_KEYWORDS).map .str := by
  simp [extractAttributes, dictGet_append, dictGet_optEntry, Option.or_none]

theorem extract_strength (n : String) (d : Option String) :
    dictGet "attr_strength_percent" (extractAttributes n d) =
      (searchStrength (haystackOf n d)).map (fun ds => .num (digitsToQ ds)) := by
  simp [extractAttributes, dictGet_append, dictGet_optEntry, Option.or_none]

theorem extract_length (n : String) (d : Option String) :
    dictGet "attr_length_mm" (extractAttributes n d) =
      (searchLength (haystackOf n d)).map (fun ds => .num (digitsToQ ds)) := by
  simp [extractAttributes, dictGet_append, dictGet_optEntry, Option.or_none]

theorem extract_material (n : String) (d : Option String) :
    dictGet "attr_material" (extractAttributes n d) =
      (firstKeyword (haystackLowerOf n d) MATERIAL_KEYWORDS).map .str := by
  simp [extractAttributes, dictGet_append, dictGet_optEntry, Option.or_none]

theorem extract_shape (n : String) (d : Option String) :
    dictGet "attr_shape" (extractAttributes n d) =
      (firstKeyword (haystackLowerOf n d) SHAPE_KEYWORDS).map .str := by
  simp [extractAttributes, dictGet_append, dictGet_optEntry, Option.or_none]

theorem extract_color (n : String) (d : Option String) :
    dictGet "attr_color_name" (extractAttributes n d) =
      (firstKeyword (haystackLowerOf n d) COLOR_KEYWORDS).map .str := by
  simp [extractAttributes, dictGet_append, dictGet_optEntry, Option.or_none]

theorem extract_collection (n : String) (d : Option String) :
    dictGet "attr_collection" (extractAttributes n d) =
      (searchCollection (haystackOf n d)).map (fun g => .str (String.mk (pyStrip g))) := by
  simp [extractAttributes, dictGet_append, dictGet_optEntry, Option.or_none]

/-! ### Search and keyword lemmas -/

theorem firstKeyword_decomp {t : List Char} {kws : List String} {k : String}
    (h : firstKeyword t kws = some k) :
    ∃ pre post, kws = pre ++ k :: post ∧ isSubL k.toList t = true ∧
      ∀ k' ∈ pre, isSubL k'.toList t = false := by
  induction kws with
  | nil => simp [firstKeyword] at h
  | cons k0 rest ih =>
    simp only [firstKeyword] at h
    split at h
    · rename_i h0
      obtain rfl : k0 = k := Option.some.inj h
      exact ⟨[], rest, rfl, h0, by simp⟩
    · rename_i h0
      obtain ⟨pre, post, heq, hsub, hpre⟩ := ih h
      refine ⟨k0 :: pre, post, by simp [heq], hsub, ?_⟩
      intro k' hk'
      rcases List.mem_cons.mp hk' with rfl | hk'
      · simpa using h0
      · exact hpre k' hk'

theorem firstKeyword_mem {t : List Char} {kws : List String} {k : String}
    (h : firstKeyword t kws = some k) : k ∈ kws := by
  obtain ⟨pre, post, heq, -, -⟩ := firstKeyword_decomp h
  simp [heq]

theorem searchSuffix_prop {α : Type} {f : List Char → Option α} {P : α → Prop}
    (hf : ∀ s r, f s = some r → P r) :
    ∀ {t : List Char} {r : α}, searchSuffix f t = some r → P r := by
  intro t
  induction t with
  | nil => intro r h; exact hf _ _ (by simpa [searchSuffix] using h)
  | cons c rest ih =>
    intro r h
    simp only [searchSuffix] at h
    cases hc : f (c :: rest) with
    | some x => rw [hc] at h; exact hf _ _ (hc.trans (by simpa using h))
    | none => rw [hc] at h; exact ih h

theorem searchWithPrev_prop {α : Type} {f : Option Char → List Char → Option α}
    {P : α → Prop} (hf : ∀ p s r, f p s = some r → P r) :
    ∀ {t : List Char} {p : Option Char} {r : α},
      searchWithPrev f p t = some r → P r := by
  intro t
  induction t with
  | nil => intro p r h; exact hf _ _ _ (by simpa [searchWithPrev] using h)
  | cons c rest ih =>
    intro p r h
    simp only [searchWithPrev] at h
    cases hc : f p (c :: rest) with
    | some x => rw [hc] at h; exact hf _ _ _ (hc.trans (by simpa using h))
    | none => rw [hc] at h; exact ih h

theorem tryLens_some {lens : List Nat} {p : Char → Bool} {tail : List Char → Bool}
    {s r : List Char} (h : tryLens lens p tail s = some r) :
    r.length ∈ lens ∧ r.all p = true := by
  induction lens with
  | nil => simp [tryLens] at h
  | cons n ns ih =>
    simp only [tryLens] at h
    split at h
    · rename_i hcond
      obtain ⟨hlen, hall, -⟩ := hcond
      obtain rfl : s.take n = r := by simpa using h
      exact ⟨by simp [hlen], hall⟩
    · obtain ⟨h1, h2⟩ := ih h
      exact ⟨by simp [h1], h2⟩

theorem append_cons_ne_nil (l : List Char) (c : Char) (t : List Char) :
    l ++ c :: t ≠ [] := by
  cases l <;> simp

theorem gritFirst_ne_nil {n : Nat} {s r : List Char} (h : gritFirst n s = some r) :
    r ≠ [] := by
  unfold gritFirst at h
  split at h
  · split at h
    · split at h
      · rename_i d2 hd2
        obtain rfl : s.take n ++ '/' :: d2 = r := by simpa using h
        exact append_cons_ne_nil _ _ _
      · exact absurd h (by simp)
    · exact absurd h (by simp)
  · exact absurd h (by simp)

theorem matchGritAt_ne_nil {p : Option Char} {s r : List Char}
    (h : matchGritAt p s = some r) : r ≠ [] := by
  unfold matchGritAt at h
  split at h
  · cases h3 : gritFirst 3 s with
    | some x => rw [h3] at h; exact gritFirst_ne_nil (h3.trans (by simpa using h))
    | none => rw [h3] at h; exact gritFirst_ne_nil h
  · exact absurd h (by simp)

theorem searchGrit_ne_nil {t r : List Char} (h : searchGrit t = some r) : r ≠ [] :=
  searchWithPrev_prop (fun _ _ _ hm => matchGritAt_ne_nil hm) h

theorem shadeLetters_ne_nil {n : Nat} {s r : List Char}
    (h : shadeLetters n s = some r) : r ≠ [] := by
  unfold shadeLetters at h
  split at h
  · split at h
    · rename_i ds hds
      obtain rfl : s.take n ++ ds = r := by simpa using h
      obtain ⟨hlen, -⟩ := tryLens_some hds
      intro hnil
      rcases List.append_eq_nil.mp hnil with ⟨-, rfl⟩
      simp at hlen
    · exact absurd h (by simp)
  · exact absurd h (by simp)

theorem shadeAlt1_ne_nil {s r : List Char} (h : shadeAlt1 s = some r) : r ≠ [] := by
  unfold shadeAlt1 at h
  split at h
  · split at h
    · rename_i hh
      obtain rfl : '#' :: _ = r := Option.some.inj h
      simp
    · exact absurd h (by simp)
  · exact absurd h (by simp)

theorem matchShadeAt_ne_nil {s r : List Char} (h : matchShadeAt s = some r) :
    r ≠ [] := by
  unfold matchShadeAt at h
  cases h1 : shadeAlt1 s with
  | some x =>
    rw [h1] at h
    exact shadeAlt1_ne_nil (h1.trans (by simpa using h))
  | none =>
    rw [h1] at h
    cases h2 : shadeLetters 2 s with
    | some x => rw [h2] at h; exact shadeLetters_ne_nil (h2.trans (by simpa using h))
    | none => rw [h2] at h; exact shadeLetters_ne_nil h

theorem searchShade_ne_nil {t r : List Char} (h : searchShade t = some r) : r ≠ [] :=
  searchSuffix_prop (fun _ _ hm => matchShadeAt_ne_nil hm) h

theorem collLazy_props : ∀ (fuel : Nat) (acc s r : List Char),
    (∀ c ∈ acc, isWordHyphen c = true) → acc ≠ [] →
    collLazy fuel acc s = some r →
    r ≠ [] ∧ ∀ c ∈ r, isWordHyphen c = true := by
  intro fuel
  induction fuel with
  | zero =>
    intro acc s r hacc hne h
    simp only [collLazy] at h
    split at h
    · obtain rfl : acc.reverse = r := Option.some.inj h
      exact ⟨by simpa using hne, fun c hc => hacc c (by simpa using hc)⟩
    · simp at h
  | succ f ih =>
    intro acc s r hacc hne h
    simp only [collLazy] at h
    split at h
    · obtain rfl : acc.reverse = r := Option.some.inj h
      exact ⟨by simpa using hne, fun c hc => hacc c (by simpa using hc)⟩
    · cases s with
      | nil => simp at h
      | cons c cs =>
        simp only at h
        split at h
        · rename_i hc
          refine ih (c :: acc) cs r ?_ (by simp) h
          intro x hx
          rcases List.mem_cons.mp hx with rfl | hx
          · exact hc
          · exact hacc x hx
        · simp at h

theorem collGroup_props {s r : List Char} (h : collGroup s = some r) :
    r ≠ [] ∧ ∀ c ∈ r, isWordHyphen c = true := by
  unfold collGroup at h
  split at h
  · rename_i a b c rest
    split at h
    · rename_i habc
      have habc' : isWordHyphen a = true ∧ isWordHyphen b = true ∧
          isWordHyphen c = true := by simpa [and_assoc] using habc
      refine collLazy_props 27 [c, b, a] rest r ?_ (by simp) h
      intro x hx
      rcases List.mem_cons.mp hx with rfl | hx
      · exact habc'.2.2
      · rcases List.mem_cons.mp hx with rfl | hx
        · exact habc'.2.1
        · rcases List.mem_cons.mp hx with rfl | hx
          · exact habc'.1
          · simp at hx
    · simp at h
  · simp at h

theorem matchCollectionAt_props {s r : List Char}
    (h : matchCollectionAt s = some r) :
    r ≠ [] ∧ ∀ c ∈ r, isWordHyphen c = true := by
  unfold matchCollectionAt at h
  split at h
  · simp at h
  · split at h
    · simp at h
    · split at h
      · split at h
        · exact collGroup_props h
        · simp at h
      · simp at h

theorem searchCollection_props {t r : List Char} (h : searchCollection t = some r) :
    r ≠ [] ∧ ∀ c ∈ r, isWordHyphen c = true :=
  searchSuffix_prop (fun _ _ hm => matchCollectionAt_props hm) h

theorem wordHyphen_not_space {c : Char} (h : isWordHyphen c = true) :
    isSpaceChar c = false := by
  by_contra h'
  have h2 : isSpaceChar c = true := by simpa using h'
  have hcases : c = ' ' ∨ c = '\t' ∨ c = '\n' ∨ c = '\r' ∨ c = '\x0b' ∨ c = '\x0c' := by
    simpa [isSpaceChar, or_assoc] using h2
  rcases hcases with rfl | rfl | rfl | rfl | rfl | rfl <;> exact absurd h (by decide)

theorem dropWhile_no_space {l : List Char}
    (h : ∀ c ∈ l, isSpaceChar c = false) : l.dropWhile isSpaceChar = l := by
  cases l with
  | nil => rfl
  | cons c t => simp [List.dropWhile_cons, h c (by simp)]

theorem pyStrip_of_no_space {l : List Char}
    (h : ∀ c ∈ l, isSpaceChar c = false) : pyStrip l = l := by
  unfold pyStrip
  rw [dropWhile_no_space h, dropWhile_no_space (fun c hc => h c (by simpa using hc)),
    List.reverse_reverse]

theorem stringMk_ne_empty {l : List Char} (h : l ≠ []) : String.mk l ≠ "" := by
  intro hc
  exact h (by simpa using congrArg String.data hc)

theorem optEntry_keys_sublist (k : String) (v : Option AttrValue) :
    List.Sublist ((optEntry k v).map Prod.fst) [k] := by
  cases v with
  | none => exact List.nil_sublist _
  | some x => simp [optEntry]

theorem optEntry_chain_sublist {k : String} {v : Option AttrValue}
    {rest : List (String × AttrValue)} {restKeys : List String}
    (h : List.Sublist (rest.map Prod.fst) restKeys) :
    List.Sublist (((optEntry k v ++ rest)).map Prod.fst) (k :: restKeys) := by
  cases v with
  | none => simpa [optEntry] using h.cons k
  | some x => simpa [optEntry] using h.cons₂ k

theorem extract_keys_sublist (n : String) (d : Option String) :
    List.Sublist ((extractAttributes n d).map Prod.fst) EXTRACT_KEYS := by
  simp only [extractAttributes, EXTRACT_KEYS]
  exact optEntry_chain_sublist (optEntry_chain_sublist (optEntry_chain_sublist
    (optEntry_chain_sublist (optEntry_chain_sublist (optEntry_chain_sublist
    (optEntry_chain_sublist (optEntry_chain_sublist (optEntry_chain_sublist
    (optEntry_chain_sublist (optEntry_chain_sublist (optEntry_chain_sublist
    (optEntry_keys_sublist _ _))))))))))))

theorem extract_key_mem {n : String} {d : Option String} {kv : String × AttrValue}
    (h : kv ∈ extractAttributes n d) : kv.1 ∈ EXTRACT_KEYS :=
  (extract_keys_sublist n d).subset (List.mem_map_of_mem Prod.fst h)

theorem extract_keys_nodup (n : String) (d : Option String) :
    ((extractAttributes n d).map Prod.fst).Nodup := by
  have h2 : EXTRACT_KEYS.Nodup := by decide
  exact List.Nodup.sublist (extract_keys_sublist n d) h2

theorem kw_ne_empty {k : String} {kws : List String}
    (hmem : k ∈ kws) (hall : kws.all (· ≠ "") = true) : k ≠ "" := by
  rw [List.all_eq_true] at hall
  simpa using hall k hmem

theorem curing_ne_empty {k : String} (h : k ∈ CURING_KEYWORDS) :
    curingNormalize k ≠ "" := by
  have hc : k = "uv/led" ∨ k = "uv led" ∨ k = "uv" ∨ k = "led" := by
    simpa [CURING_KEYWORDS] using h
  rcases hc with rfl | rfl | rfl | rfl <;> decide

theorem dictGet_eq_none_of_not_mem {α : Type} {k : String} {l : List (String × α)}
    (h : k ∉ l.map Prod.fst) : dictGet k l = none := by
  induction l with
  | nil => rfl
  | cons kv rest ih =>
    simp only [List.map_cons, List.mem_cons] at h
    push_neg at h
    simpa [dictGet, h.1] using ih h.2

/-- C10. `extract_attributes` is a total function of the name and optional
description; every entry of its result has a key from the fixed
thirteen-element `attr_*` set, numeric keys carry float values, and all other
keys carry non-empty string values. -/
theorem extract_total_keyset_types (n : String) (d : Option String) :
    ∀ kv ∈ extractAttributes n d,
      kv.1 ∈ EXTRACT_KEYS ∧
      (kv.1 ∈ NUM_KEYS → ∃ q, kv.2 = AttrValue.num q) ∧
      (kv.1 ∉ NUM_KEYS → ∃ s, s ≠ "" ∧ kv.2 = AttrValue.str s) := by
  intro kv h
  refine ⟨extract_key_mem h, ?_⟩
  simp only [extractAttributes, List.mem_append] at h
  rcases h with h | h | h | h | h | h | h | h | h | h | h | h | h
  all_goals
    obtain ⟨hkey, hval⟩ := mem_optEntry h
  · -- attr_volume_ml
    obtain ⟨ds, -, hv⟩ := Option.map_eq_some'.mp hval
    exact ⟨fun _ => ⟨digitsToQ ds, hv.symm⟩, fun hn => absurd (by simp [hkey, NUM_KEYS]) hn⟩
  · -- attr_grit
    obtain ⟨g, hg, hv⟩ := Option.map_eq_some'.mp hval
    refine ⟨fun hn => ?_, fun _ => ⟨String.mk g, stringMk_ne_empty (searchGrit_ne_nil hg), hv.symm⟩⟩
    rw [hkey] at hn; simp [NUM_KEYS] at hn
  · -- attr_shade_code
    obtain ⟨m, hm, hv⟩ := Option.map_eq_some'.mp hval
    refine ⟨fun hn => ?_, fun _ => ⟨String.mk (m.map pyUpper),
      stringMk_ne_empty (by simpa using searchShade_ne_nil hm), hv.symm⟩⟩
    rw [hkey] at hn; simp [NUM_KEYS] at hn
  · -- attr_finish
    obtain ⟨k, hk, hv⟩ := Option.map_eq_some'.mp hval
    refine ⟨fun hn => ?_, fun _ => ⟨k, kw_ne_empty (firstKeyword_mem hk) (by decide), hv.symm⟩⟩
    rw [hkey] at hn; simp [NUM_KEYS] at hn
  · -- attr_curing_type
    obtain ⟨k, hk, hv⟩ := Option.map_eq_some'.mp hval
    refine ⟨fun hn => ?_, fun _ =>
      ⟨curingNormalize k, curing_ne_empty (firstKeyword_mem hk), hv.symm⟩⟩
    rw [hkey] at hn; simp [NUM_KEYS] at hn
  · -- attr_liquid_type
    obtain ⟨k, hk, hv⟩ := Option.map_eq_some'.mp hval
    refine ⟨fun hn => ?_, fun _ => ⟨k, kw_ne_empty (firstKeyword_mem hk) (by decide), hv.symm⟩⟩
    rw [hkey] at hn; simp [NUM_KEYS] at hn
  · -- attr_scent
    obtain ⟨k, hk, hv⟩ := Option.map_eq_some'.mp hval
    refine ⟨fun hn => ?_, fun _ => ⟨k, kw_ne_empty (firstKeyword_mem hk) (by decide), hv.symm⟩⟩
    rw [hkey] at hn; simp [NUM_KEYS] at hn
  · -- attr_strength_percent
    obtain ⟨ds, -, hv⟩ := Option.map_eq_some'.mp hval
    exact ⟨fun _ => ⟨digitsToQ ds, hv.symm⟩, fun hn => absurd (by simp [hkey, NUM_KEYS]) hn⟩
  · -- attr_length_mm
    obtain ⟨ds, -, hv⟩ := Option.map_eq_some'.mp hval
    exact ⟨fun _ => ⟨digitsToQ ds, hv.symm⟩, fun hn => absurd (by simp [hkey, NUM_KEYS]) hn⟩
  · -- attr_material
    obtain ⟨k, hk, hv⟩ := Option.map_eq_some'.mp hval
    refine ⟨fun hn => ?_, fun _ => ⟨k, kw_ne_empty (firstKeyword_mem hk) (by decide), hv.symm⟩⟩
    rw [hkey] at hn; simp [NUM_KEYS] at hn
  · -- attr_shape
    obtain ⟨k, hk, hv⟩ := Option.map_eq_some'.mp hval
    refine ⟨fun hn => ?_, fun _ => ⟨k, kw_ne_empty (firstKeyword_mem hk) (by decide), hv.symm⟩⟩
    rw [hkey] at hn; simp [NUM_KEYS] at hn
  · -- attr_color_name
    obtain ⟨k, hk, hv⟩ := Option.map_eq_some'.mp hval
    refine ⟨fun hn => ?_, fun _ => ⟨k, kw_ne_empty (firstKeyword_mem hk) (by decide), hv.symm⟩⟩
    rw [hkey] at hn; simp [NUM_KEYS] at hn
  · -- attr_collection
    obtain ⟨g, hg, hv⟩ := Option.map_eq_some'.mp hval
    obtain ⟨hgne, hgwh⟩ := searchCollection_props hg
    have hstrip : pyStrip g = g :=
      pyStrip_of_no_space (fun c hc => wordHyphen_not_space (hgwh c hc))
    refine ⟨fun hn => ?_, fun _ =>
      ⟨String.mk (pyStrip g), by rw [hstrip]; exact stringMk_ne_empty hgne, hv.symm⟩⟩
    rw [hkey] at hn; simp [NUM_KEYS] at hn

/-- C10 witness. -/
theorem extract_total_keyset_types_witness :
    ("attr_volume_ml", AttrValue.num 15) ∈ extractAttributes "15 ml" none ∧
      "attr_volume_ml" ∈ EXTRACT_KEYS := by
  refine ⟨by decide, ?_⟩
  have h := extract_total_keyset_types "15 ml" none
    ("attr_volume_ml", AttrValue.num 15) (by decide)
  exact h.1


/-- C8. The extraction result is a sparse mapping: a key is present exactly
when its pattern or keyword search matched (so a key with no match is absent,
and a key outside the fixed set is never present), and no present value is
the empty string — there is no null or placeholder value. -/
theorem extract_sparse (n : String) (d : Option String) :
    (∀ k, dictGet k (extractAttributes n d) = matcherOutcome k n d) ∧
    (∀ kv ∈ extractAttributes n d, kv.2 ≠ AttrValue.str "") := by
  constructor
  · intro k
    by_cases h1 : k = "attr_volume_ml"
    · subst h1; simpa [matcherOutcome] using extract_volume n d
    by_cases h2 : k = "attr_grit"
    · subst h2; simpa [matcherOutcome] using extract_grit n d
    by_cases h3 : k = "attr_shade_code"
    · subst h3; simpa [matcherOutcome] using extract_shade n d
    by_cases h4 : k = "attr_finish"
    · subst h4; simpa [matcherOutcome] using extract_finish n d
    by_cases h5 : k = "attr_curing_type"
    · subst h5; simpa [matcherOutcome] using extract_curing n d
    by_cases h6 : k = "attr_liquid_type"
    · subst h6; simpa [matcherOutcome] using extract_liquid n d
    by_cases h7 : k = "attr_scent"
    · subst h7; simpa [matcherOutcome] using extract_scent n d
    by_cases h8 : k = "attr_strength_percent"
    · subst h8; simpa [matcherOutcome] using extract_strength n d
    by_cases h9 : k = "attr_length_mm"
    · subst h9; simpa [matcherOutcome] using extract_length n d
    by_cases h10 : k = "attr_material"
    · subst h10; simpa [matcherOutcome] using extract_material n d
    by_cases h11 : k = "attr_shape"
    · subst h11; simpa [matcherOutcome] using extract_shape n d
    by_cases h12 : k = "attr_color_name"
    · subst h12; simpa [matcherOutcome] using extract_color n d
    by_cases h13 : k = "attr_collection"
    · subst h13; simpa [matcherOutcome] using extract_collection n d
    · rw [dictGet_eq_none_of_not_mem, matcherOutcome]
      · simp [h1, h2, h3, h4, h5, h6, h7, h8, h9, h10, h11, h12, h13]
      · intro hmem
        have := (extract_keys_sublist n d).subset hmem
        simp [EXTRACT_KEYS] at this
        tauto
  · intro kv hkv
    obtain ⟨-, -, hother⟩ := extract_total_keyset_types n d kv hkv
    by_cases hn : kv.1 ∈ NUM_KEYS
    · obtain ⟨-, hq, -⟩ := extract_total_keyset_types n d kv hkv
      obtain ⟨q, hq⟩ := hq hn
      simp [hq]
    · obtain ⟨s, hs, hval⟩ := hother hn
      simp [hval, hs]

/-- C8 witness. -/
theorem extract_sparse_witness :
    ("attr_volume_ml", AttrValue.num 15) ∈ extractAttributes "15 ml" none ∧
      AttrValue.num 15 ≠ AttrValue.str "" :=
  ⟨by decide, (extract_sparse "15 ml" none).2 ("attr_volume_ml", AttrValue.num 15) (by decide)⟩


/-- C3 counterexample. In `"lucios mat"` the finish keywords `"lucios"`
(first occurrence at index 0) and `"mat"` (index 7) both occur; the keyword
whose match occurs first in the text is `"lucios"`, yet `extract` returns
`"mat"` — the keyword list's order, not the textual position, decides. -/
theorem keyword_text_order_counterexample :
    dictGet "attr_finish" (extractAttributes "lucios mat" none) =
      some (AttrValue.str "mat") ∧
    firstIdx "lucios".toList (haystackLowerOf "lucios mat" none) = some 0 ∧
    firstIdx "mat".toList (haystackLowerOf "lucios mat" none) = some 7 ∧
    dictGet "attr_finish" (extractAttributes "lucios mat" none) ≠
      some (AttrValue.str "lucios") := by decide

/-- C3 (amended). For each keyword category, when `extract` emits the
category's attribute, the emitted keyword is the first of that category's
fixed list that occurs as a substring of the case-folded combined text: all
keywords preceding it in the list occur nowhere in the text (list-order
priority, not first-in-text). The curing keyword is additionally space-stripped
and upper-cased. -/
theorem keyword_list_order_wins (n : String) (d : Option String) :
    (∀ v, dictGet "attr_finish" (extractAttributes n d) = some (.str v) →
      FirstListKeyword FINISH_KEYWORDS (haystackLowerOf n d) v) ∧
    (∀ v, dictGet "attr_curing_type" (extractAttributes n d) = some (.str v) →
      ∃ k, FirstListKeyword CURING_KEYWORDS (haystackLowerOf n d) k ∧
        v = curingNormalize k) ∧
    (∀ v, dictGet "attr_liquid_type" (extractAttributes n d) = some (.str v) →
      FirstListKeyword LIQUID_TYPES (haystackLowerOf n d) v) ∧
    (∀ v, dictGet "attr_scent" (extractAttributes n d) = some (.str v) →
      FirstListKeyword SCENT_KEYWORDS (haystackLowerOf n d) v) ∧
    (∀ v, dictGet "attr_material" (extractAttributes n d) = some (.str v) →
      FirstListKeyword MATERIAL_KEYWORDS (haystackLowerOf n d) v) ∧
    (∀ v, dictGet "attr_shape" (extractAttributes n d) = some (.str v) →
      FirstListKeyword SHAPE_KEYWORDS (haystackLowerOf n d) v) ∧
    (∀ v, dictGet "attr_color_name" (extractAttributes n d) = some (.str v) →
      FirstListKeyword COLOR_KEYWORDS (haystackLowerOf n d) v) := by
  refine ⟨?_, ?_, ?_, ?_, ?_, ?_, ?_⟩
  · intro v h
    rw [extract_finish] at h
    obtain ⟨k, hk, hv⟩ := Option.map_eq_some'.mp h
    obtain rfl : k = v := by simpa using hv
    exact firstKeyword_decomp hk
  · intro v h
    rw [extract_curing] at h
    obtain ⟨k, hk, hv⟩ := Option.map_eq_some'.mp h
    exact ⟨k, firstKeyword_decomp hk, by simpa using hv.symm⟩
  · intro v h
    rw [extract_liquid] at h
    obtain ⟨k, hk, hv⟩ := Option.map_eq_some'.mp h
    obtain rfl : k = v := by simpa using hv
    exact firstKeyword_decomp hk
  · intro v h
    rw [extract_scent] at h
    obtain ⟨k, hk, hv⟩ := Option.map_eq_some'.mp h
    obtain rfl : k = v := by simpa using hv
    exact firstKeyword_decomp hk
  · intro v h
    rw [extract_material] at h
    obtain ⟨k, hk, hv⟩ := Option.map_eq_some'.mp h
    obtain rfl : k = v := by simpa using hv
    exact firstKeyword_decomp hk
  · intro v h
    rw [extract_shape] at h
    obtain ⟨k, hk, hv⟩ := Option.map_eq_some'.mp h
    obtain rfl : k = v := by simpa using hv
    exact firstKeyword_decomp hk
  · intro v h
    rw [extract_color] at h
    obtain ⟨k, hk, hv⟩ := Option.map_eq_some'.mp h
    obtain rfl : k = v := by simpa using hv
    exact firstKeyword_decomp hk

/-- C3 (amended) witness: on `"lucios mat"` the emitted finish keyword
`"mat"` is the list-order-first occurring keyword. -/
theorem keyword_list_order_wins_witness :
    dictGet "attr_finish" (extractAttributes "lucios mat" none) =
      some (AttrValue.str "mat") ∧
    FirstListKeyword FINISH_KEYWORDS (haystackLowerOf "lucios mat" none) "mat" :=
  ⟨by decide, (keyword_list_order_wins "lucios mat" none).1 "mat" (by decide)⟩

/-- C4. The worked example: extraction on the Romanian gel-polish name and
description yields volume 15.0, a shade code containing `A021`,
curing type `UV/LED` and collection `Glam`. -/
theorem extract_polish_example :
    dictGet "attr_volume_ml" (extractAttributes
      "Oja semipermanenta Colectia Glam 15 ml #A021 Roz Lucios"
      (some "Finisaj glitter, UV/LED")) = some (.num 15) ∧
    dictGet "attr_shade_code" (extractAttributes
      "Oja semipermanenta Colectia Glam 15 ml #A021 Roz Lucios"
      (some "Finisaj glitter, UV/LED")) = some (.str "#A021") ∧
    isSubL "A021".toList "#A021".toList = true ∧
    dictGet "attr_curing_type" (extractAttributes
      "Oja semipermanenta Colectia Glam 15 ml #A021 Roz Lucios"
      (some "Finisaj glitter, UV/LED")) = some (.str "UV/LED") ∧
    dictGet "attr_collection" (extractAttributes
      "Oja semipermanenta Colectia Glam 15 ml #A021 Roz Lucios"
      (some "Finisaj glitter, UV/LED")) = some (.str "Glam") := by decide

/-! ### Collection extraction (C5) -/

/-- C5 counterexample. `"colectia glam rose"` contains the marker, and the
text following it up to the end (there is no digit) trimmed is
`"glam rose"`; the claim therefore demands `collection = "glam rose"`, but
the capture group cannot span the inner space, so `extract` yields no
collection at all. -/
theorem collection_counterexample :
    isSubL "colectia".toList (haystackLowerOf "colectia glam rose" none) = true ∧
    dictGet "attr_collection" (extractAttributes "colectia glam rose" none) = none ∧
    dictGet "attr_collection" (extractAttributes "colectia glam rose" none) ≠
      some (AttrValue.str "glam rose") := by decide

theorem digit_not_space {c : Char} (h : c.isDigit = true) : isSpaceChar c = false := by
  by_contra h'
  have h2 : isSpaceChar c = true := by simpa using h'
  have hcases : c = ' ' ∨ c = '\t' ∨ c = '\n' ∨ c = '\r' ∨ c = '\x0b' ∨ c = '\x0c' := by
    simpa [isSpaceChar, or_assoc] using h2
  rcases hcases with rfl | rfl | rfl | rfl | rfl | rfl <;> exact absurd h (by decide)

theorem collTerm_cons_false {c : Char} {xs : List Char}
    (h : isSpaceChar c = false) : collTerm (c :: xs) = false := by
  simp [collTerm, h]

/-- Running the lazy capture over a run of word/hyphen characters followed by
a terminator-satisfying tail consumes exactly the run. -/
theorem collLazy_run : ∀ (rest : List Char) (acc : List Char) (fuel : Nat)
    (t0 : List Char), (∀ c ∈ rest, isWordHyphen c = true) →
    rest.length ≤ fuel → collTerm t0 = true →
    collLazy fuel acc (rest ++ t0) = some (acc.reverse ++ rest) := by
  intro rest
  induction rest with
  | nil =>
    intro acc fuel t0 h1 h2 h3
    cases fuel <;> simp [collLazy, h3]
  | cons c cs ih =>
    intro acc fuel t0 h1 h2 h3
    cases fuel with
    | zero => simp at h2
    | succ f =>
      have hcw : isWordHyphen c = true := h1 c (by simp)
      have hterm : collTerm (c :: (cs ++ t0)) = false :=
        collTerm_cons_false (wordHyphen_not_space hcw)
      rw [List.cons_append, collLazy, if_neg (by simp [hterm])]
      simp only [hcw, if_true]
      rw [ih (c :: acc) f t0 (fun x hx => h1 x (by simp [hx])) (by simpa using h2) h3]
      simp

theorem searchSuffix_cons_of_pos {α : Type} {f : List Char → Option α}
    {c : Char} {rest : List Char} {r : α} (h : f (c :: rest) = some r) :
    searchSuffix f (c :: rest) = some r := by
  simp [searchSuffix, h]

theorem haystackOf_single {s : String} (h : s ≠ "") :
    haystackOf s none = s.toList := by
  unfold haystackOf
  have hfilter : ([s, (none : Option String).getD ""]).filter (· ≠ "") = [s] := by
    simp [List.filter, h]
  rw [hfilter]
  have : String.intercalate " " [s] = s := rfl
  rw [this]

theorem stringMk_ne_empty_of_cons (c : Char) (l : List Char) :
    String.mk (c :: l) ≠ "" :=
  stringMk_ne_empty (by simp)

/-- The collection capture on a text of the shape
`"colectia " ++ w ++ tail` with `collTerm tail`: it yields exactly `w`. -/
theorem searchCollection_shape (w t0 : List Char)
    (h3 : 3 ≤ w.length) (h30 : w.length ≤ 30)
    (hw : ∀ c ∈ w, isWordHyphen c = true) (ht : collTerm t0 = true) :
    searchCollection ("colectia ".toList ++ w ++ t0) = some w := by
  obtain ⟨a, w1, rfl⟩ : ∃ a w1, w = a :: w1 := by
    cases w with
    | nil => simp at h3
    | cons a w1 => exact ⟨a, w1, rfl⟩
  obtain ⟨b, w2, rfl⟩ : ∃ b w2, w1 = b :: w2 := by
    cases w1 with
    | nil => simp at h3
    | cons b w2 => exact ⟨b, w2, rfl⟩
  obtain ⟨c, w3, rfl⟩ : ∃ c w3, w2 = c :: w3 := by
    cases w2 with
    | nil => simp at h3
    | cons c w3 => exact ⟨c, w3, rfl⟩
  have ha : isWordHyphen a = true := hw a (by simp)
  have hb : isWordHyphen b = true := hw b (by simp)
  have hc : isWordHyphen c = true := hw c (by simp)
  apply searchSuffix_cons_of_pos
  show matchCollectionAt
    ('c' :: 'o' :: 'l' :: 'e' :: 'c' :: 't' :: 'i' :: 'a' :: ' ' ::
      (a :: b :: c :: (w3 ++ t0))) = some (a :: b :: c :: w3)
  have hstep : matchCollectionAt
      ('c' :: 'o' :: 'l' :: 'e' :: 'c' :: 't' :: 'i' :: 'a' :: ' ' ::
        (a :: b :: c :: (w3 ++ t0))) =
      collGroup (List.dropWhile isSpaceChar (a :: b :: c :: (w3 ++ t0))) := rfl
  rw [hstep, List.dropWhile_cons, if_neg (by simp [wordHyphen_not_space ha])]
  have hgrp : collGroup (a :: b :: c :: (w3 ++ t0)) =
      collLazy 27 [c, b, a] (w3 ++ t0) := by
    simp only [collGroup, ha, hb, hc]
    rfl
  rw [hgrp, collLazy_run w3 [c, b, a] 27 t0
    (fun x hx => hw x (by simp [hx])) (by simpa using h30) ht]
  simp

/-- C5 (amended). When the text after the marker's whitespace is a single
word/hyphen token of 3–30 characters followed by whitespace and a digit, or
standing at the end of the text, the collection attribute is exactly that
token (it needs no trimming, having no surrounding whitespace); following
text that spans further whitespace before the next digit or end is not
captured (see the counterexample). -/
theorem collection_token_extracted (w : String) (dg : Char)
    (h3 : 3 ≤ w.toList.length) (h30 : w.toList.length ≤ 30)
    (hw : ∀ c ∈ w.toList, isWordHyphen c = true) (hd : dg.isDigit = true) :
    dictGet "attr_collection"
        (extractAttributes (String.mk ("colectia ".toList ++ w.toList ++ [' ', dg]))
          none) = some (.str w) ∧
    dictGet "attr_collection"
        (extractAttributes (String.mk ("colectia ".toList ++ w.toList)) none) =
      some (.str w) := by
  have hterm1 : collTerm [' ', dg] = true := by
    have h1 : List.dropWhile isSpaceChar [' ', dg] = [dg] := by
      rw [show List.dropWhile isSpaceChar [' ', dg] =
          List.dropWhile isSpaceChar [dg] from rfl,
        List.dropWhile_cons, if_neg (by simp [digit_not_space hd])]
    simp only [collTerm, h1, hd]
    simp
    exact Or.inl rfl
  have hterm2 : collTerm ([] : List Char) = true := by simp [collTerm]
  have hstripw : pyStrip w.data = w.data :=
    pyStrip_of_no_space (fun x hx => wordHyphen_not_space (hw x hx))
  constructor
  · rw [extract_collection, haystackOf_single (stringMk_ne_empty (by simp))]
    have hdata : (String.mk ("colectia ".toList ++ w.toList ++ [' ', dg])).toList =
        "colectia ".toList ++ w.toList ++ [' ', dg] := rfl
    rw [hdata, searchCollection_shape w.toList [' ', dg] h3 h30 hw hterm1]
    simp [hstripw]
  · rw [extract_collection, haystackOf_single (stringMk_ne_empty (by simp))]
    have hdata : (String.mk ("colectia ".toList ++ w.toList)).toList =
        "colectia ".toList ++ w.toList := rfl
    rw [hdata]
    have hsh := searchCollection_shape w.toList [] h3 h30 hw hterm2
    rw [List.append_nil] at hsh
    rw [hsh]
    simp [hstripw]

/-- C5 (amended) witness. -/
theorem collection_token_extracted_witness :
    3 ≤ "Glam".toList.length ∧ "Glam".toList.length ≤ 30 ∧
    dictGet "attr_collection" (extractAttributes
        (String.mk ("colectia ".toList ++ "Glam".toList ++ [' ', '1'])) none) =
      some (.str "Glam") := by
  refine ⟨by decide, by decide, ?_⟩
  exact (collection_token_extracted "Glam" '1' (by decide) (by decide)
    (by decide) (by decide)).1

/-! ### Ratio bounds (C1) -/

theorem bucketDamageRate_nonneg (l : List IncidentRow) : 0 ≤ bucketDamageRate l := by
  unfold bucketDamageRate
  split
  · exact le_refl 0
  · positivity

theorem bucketDamageRate_le_one {l : List IncidentRow}
    (h : sumDamaged l ≤ sumTotal l) : bucketDamageRate l ≤ 1 := by
  unfold bucketDamageRate
  split
  · exact zero_le_one
  · rename_i h0
    rw [div_le_one (by positivity)]
    exact_mod_cast h

theorem bucketDamageRate_zero {l : List IncidentRow} (h : sumTotal l = 0) :
    bucketDamageRate l = 0 := by
  unfold bucketDamageRate
  rw [if_pos h]

theorem sumDamaged_le_sumTotal {l : List IncidentRow}
    (h : ∀ i ∈ l, i.qty_damaged ≤ i.qty_total) : sumDamaged l ≤ sumTotal l :=
  List.sum_le_sum h

/-- C1. Every ratio the four aggregations return lies in `[0, 1]` (for the
damage rates, under the store invariant that each incident's damaged quantity
does not exceed its shipped quantity), and a bucket with total 0 gets ratio
exactly 0 — the bucket script and the Python coverage expression never divide
by zero. -/
theorem aggregation_ratio_unit_interval
    (incs : List IncidentRow) (pt : Option String) (sid attr : String)
    (prods : List ProductRow)
    (hvalid : ∀ i ∈ incs, i.qty_damaged ≤ i.qty_total) :
    (∀ r ∈ damageRatePerSupplier pt incs,
      0 ≤ r.damage_rate ∧ r.damage_rate ≤ 1 ∧
        (r.qty_total = 0 → r.damage_rate = 0)) ∧
    (∀ r ∈ damageRatePerSupplierAndType incs,
      0 ≤ r.damage_rate ∧ r.damage_rate ≤ 1 ∧
        (r.qty_total = 0 → r.damage_rate = 0)) ∧
    (∀ r ∈ monthlyDamageRateForSupplier sid incs,
      0 ≤ r.damage_rate ∧ r.damage_rate ≤ 1 ∧
        (r.qty_total = 0 → r.damage_rate = 0)) ∧
    (∀ row ∈ attributeCoverageByCategory attr prods,
      0 ≤ row.coverage_ratio ∧ row.coverage_ratio ≤ 1 ∧
        (row.total_skus = 0 → row.coverage_ratio = 0)) := by
  refine ⟨?_, ?_, ?_, ?_⟩
  · intro r hr
    obtain ⟨k, -, rfl⟩ := List.mem_map.mp hr
    refine ⟨bucketDamageRate_nonneg _, bucketDamageRate_le_one ?_, fun h0 => ?_⟩
    · refine sumDamaged_le_sumTotal (fun i hi => hvalid i ?_)
      rcases pt with - | t
      · exact (List.mem_filter.mp hi).1
      · exact (List.mem_filter.mp (List.mem_filter.mp hi).1).1
    · exact bucketDamageRate_zero h0
  · intro r hr
    obtain ⟨k, -, rfl⟩ := List.mem_map.mp hr
    refine ⟨bucketDamageRate_nonneg _, bucketDamageRate_le_one ?_, fun h0 => ?_⟩
    · exact sumDamaged_le_sumTotal (fun i hi => hvalid i (List.mem_filter.mp hi).1)
    · exact bucketDamageRate_zero h0
  · intro r hr
    obtain ⟨k, -, rfl⟩ := List.mem_map.mp hr
    refine ⟨bucketDamageRate_nonneg _, bucketDamageRate_le_one ?_, fun h0 => ?_⟩
    · exact sumDamaged_le_sumTotal
        (fun i hi => hvalid i (List.mem_filter.mp (List.mem_filter.mp hi).1).1)
    · exact bucketDamageRate_zero h0
  · intro row hrow
    obtain ⟨c, -, rfl⟩ := List.mem_map.mp hrow
    refine ⟨?_, ?_, fun h0 => ?_⟩
    · show (0 : ℚ) ≤ if _ = 0 then 0 else _
      split
      · exact le_refl 0
      · positivity
    · show (if _ = 0 then (0 : ℚ) else _) ≤ 1
      split
      · exact zero_le_one
      · rw [div_le_one (by positivity)]
        exact_mod_cast List.length_filter_le _ _
    · show (if _ = 0 then (0 : ℚ) else _) = 0
      rw [if_pos h0]

/-- C1 witness. -/
theorem aggregation_ratio_unit_interval_witness :
    (∀ i ∈ [c1SampleRow], i.qty_damaged ≤ i.qty_total) ∧
    (∀ r ∈ damageRatePerSupplier none [c1SampleRow],
      0 ≤ r.damage_rate ∧ r.damage_rate ≤ 1 ∧
        (r.qty_total = 0 → r.damage_rate = 0)) :=
  ⟨by decide, (aggregation_ratio_unit_interval [c1SampleRow] none "S1"
    "attr_finish" [] (by decide)).1⟩

/-! ### Incident creation (C2, C9) -/

/-- C2. An incident payload with `qty_damaged > qty_total_in_shipment` is
rejected with the descriptive validation error, and the store is unchanged —
the validation runs before any store write. -/
theorem create_incident_rejects_excess (p : IncidentInput) (g now : String)
    (store : List SupplierIncident)
    (h : p.qty_damaged > p.qty_total_in_shipment) :
    (createIncident p g now store).1 =
      Except.error "qty_damaged cannot exceed qty_total_in_shipment" ∧
    (createIncident p g now store).2 = store := by
  unfold createIncident
  rw [if_pos h]
  exact ⟨rfl, rfl⟩

/-- C2 witness: the spec's example, `qty_total_in_shipment = 100`,
`qty_damaged = 150`. -/
theorem create_incident_rejects_excess_witness :
    c2ExcessPayload.qty_damaged > c2ExcessPayload.qty_total_in_shipment ∧
    (createIncident c2ExcessPayload "INC-gen" "2025-05-10T12:00:00" []).1 =
      Except.error "qty_damaged cannot exceed qty_total_in_shipment" ∧
    (createIncident c2ExcessPayload "INC-gen" "2025-05-10T12:00:00" []).2 = [] :=
  ⟨by decide,
    (create_incident_rejects_excess c2ExcessPayload "INC-gen"
      "2025-05-10T12:00:00" [] (by decide)).1,
    (create_incident_rejects_excess c2ExcessPayload "INC-gen"
      "2025-05-10T12:00:00" [] (by decide)).2⟩

/-- C9 counterexample. `create_incident` accepts a payload whose damage-type
list is empty (the schema's default) and stores an incident carrying the
empty set of damage-type tags: non-emptiness is not enforced anywhere. -/
theorem incident_empty_damage_type_accepted :
    (createIncident c9EmptyPayload "INC-gen" "2025-05-10T12:00:00" []).1 =
      Except.ok "INC-1" ∧
    ((createIncident c9EmptyPayload "INC-gen" "2025-05-10T12:00:00" []).2).map
      (·.damage_type) = [[]] :=
  ⟨rfl, rfl⟩

/-- C9 (amended). A single damage-type string submitted instead of a set is
normalized into a one-element set in the constructed record; the record's
damage-type set is not otherwise constrained (it may be empty — see the
counterexample). -/
theorem incident_damage_type_normalized (p : IncidentInput) (g now : String)
    (store : List SupplierIncident) (s : String)
    (hs : p.damage_type = .str s)
    (hq : ¬ p.qty_damaged > p.qty_total_in_shipment) :
    (createIncident p g now store).1 = Except.ok (builtIncident p g now).incident_id ∧
    (createIncident p g now store).2 = storePut store (builtIncident p g now) ∧
    (builtIncident p g now).damage_type = [s] := by
  unfold createIncident
  rw [if_neg hq]
  refine ⟨rfl, rfl, ?_⟩
  simp [builtIncident, hs, normalizeDamageType]

/-- C9 (amended) witness. -/
theorem incident_damage_type_normalized_witness :
    (builtIncident c9StringPayload "INC-gen" "2025-05-10T12:00:00").damage_type =
      ["leakage"] :=
  (incident_damage_type_normalized c9StringPayload "INC-gen"
    "2025-05-10T12:00:00" [] "leakage" rfl (by decide)).2.2

/-! ### Dict update lemmas (C6) -/

theorem dictGet_isSome_of_mem {k : String} {l : List (String × AttrValue)}
    (h : k ∈ l.map Prod.fst) : (dictGet k l).isSome = true := by
  induction l with
  | nil => simp at h
  | cons kv rest ih =>
    obtain ⟨k1, v1⟩ := kv
    by_cases hk : k = k1
    · simp [dictGet, hk]
    · rw [dictGet, if_neg hk]
      refine ih ?_
      simpa [hk] using h

theorem mem_of_dictGet_isSome {k : String} {l : List (String × AttrValue)}
    (h : (dictGet k l).isSome = true) : k ∈ l.map Prod.fst := by
  induction l with
  | nil => simp [dictGet] at h
  | cons kv rest ih =>
    obtain ⟨k1, v1⟩ := kv
    by_cases hk : k = k1
    · simp [hk]
    · rw [dictGet, if_neg hk] at h
      simpa [hk] using ih h

theorem dictGet_map_setFun_self {k : String} {v : AttrValue} :
    ∀ {d : List (String × AttrValue)}, (dictGet k d).isSome = true →
      dictGet k (d.map (fun kv => if kv.1 = k then (k, v) else kv)) = some v := by
  intro d
  induction d with
  | nil => intro h; simp [dictGet] at h
  | cons kv rest ih =>
    intro h
    obtain ⟨k1, v1⟩ := kv
    by_cases hk : k = k1
    · subst hk
      simp only [List.map_cons, if_true]
      rw [dictGet, if_pos rfl]
    · have hk1 : ¬(k1 = k) := fun hh => hk hh.symm
      simp only [List.map_cons, if_neg hk1]
      rw [dictGet, if_neg hk]
      refine ih ?_
      rw [dictGet, if_neg hk] at h
      exact h

theorem dictGet_map_setFun_ne {k k' : String} {v : AttrValue} (h : k' ≠ k) :
    ∀ (d : List (String × AttrValue)),
      dictGet k' (d.map (fun kv => if kv.1 = k then (k, v) else kv)) =
        dictGet k' d := by
  intro d
  induction d with
  | nil => rfl
  | cons kv rest ih =>
    obtain ⟨k1, v1⟩ := kv
    by_cases h1 : k1 = k
    · subst h1
      simp only [List.map_cons, if_pos rfl]
      rw [dictGet, dictGet, if_neg h, if_neg (by simpa using h)]
      exact ih
    · simp only [List.map_cons, if_neg h1]
      by_cases h2 : k' = k1
      · simp [dictGet, h2]
      · rw [dictGet, dictGet, if_neg h2, if_neg h2]
        exact ih

theorem dictGet_setKey_self (d : List (String × AttrValue)) (k : String)
    (v : AttrValue) : dictGet k (setKey d k v) = some v := by
  unfold setKey
  split
  · exact dictGet_map_setFun_self (by assumption)
  · rename_i hn
    rw [dictGet_append, Option.not_isSome_iff_eq_none.mp hn]
    simp [dictGet]

theorem dictGet_setKey_ne {d : List (String × AttrValue)} {k k' : String}
    {v : AttrValue} (h : k' ≠ k) :
    dictGet k' (setKey d k v) = dictGet k' d := by
  unfold setKey
  split
  · exact dictGet_map_setFun_ne h d
  · rw [dictGet_append]
    have h2 : dictGet k' [(k, v)] = none := by simp [dictGet, h]
    rw [h2, Option.or_none]

theorem dictGet_dictUpdate_not_mem {k : String} {d2 : List (String × AttrValue)}
    (h : k ∉ d2.map Prod.fst) :
    ∀ d1, dictGet k (dictUpdate d1 d2) = dictGet k d1 := by
  induction d2 with
  | nil => intro d1; rfl
  | cons kv t ih =>
    intro d1
    simp only [List.map_cons, List.mem_cons] at h
    push_neg at h
    show dictGet k (dictUpdate (setKey d1 kv.1 kv.2) t) = _
    rw [ih h.2, dictGet_setKey_ne h.1]

theorem dictGet_dictUpdate_of_mem {k : String} {v : AttrValue} :
    ∀ (d2 : List (String × AttrValue)), (d2.map Prod.fst).Nodup →
      dictGet k d2 = some v → ∀ d1, dictGet k (dictUpdate d1 d2) = some v := by
  intro d2
  induction d2 with
  | nil => intro _ h; simp [dictGet] at h
  | cons kv t ih =>
    intro hnd h d1
    obtain ⟨k2, v2⟩ := kv
    simp only [List.map_cons, List.nodup_cons] at hnd
    by_cases hk : k = k2
    · subst hk
      rw [dictGet, if_pos rfl] at h
      obtain rfl : v2 = v := Option.some.inj h
      show dictGet k (dictUpdate (setKey d1 k v2) t) = some v2
      rw [dictGet_dictUpdate_not_mem hnd.1, dictGet_setKey_self]
    · rw [dictGet, if_neg hk] at h
      show dictGet k (dictUpdate (setKey d1 k2 v2) t) = some v
      exact ih hnd.2 h _

theorem setKey_keys_nodup {d : List (String × AttrValue)} {k : String}
    {v : AttrValue} (h : (d.map Prod.fst).Nodup) :
    ((setKey d k v).map Prod.fst).Nodup := by
  unfold setKey
  split
  · have heq : ((d.map (fun kv => if kv.1 = k then (k, v) else kv)).map Prod.fst) =
        d.map Prod.fst := by
      rw [List.map_map]
      refine List.map_congr_left ?_
      intro kv _
      by_cases hkv : kv.1 = k
      · simp [hkv]
      · simp [hkv]
    rw [heq]
    exact h
  · rename_i hn
    have hk : k ∉ d.map Prod.fst := fun hmem => hn (dictGet_isSome_of_mem hmem)
    rw [List.map_append, List.nodup_append]
    refine ⟨h, by simp, ?_⟩
    intro a ha hb
    simp only [List.map_cons, List.map_nil, List.mem_singleton] at hb
    subst hb
    exact hk ha

theorem dictUpdate_keys_nodup :
    ∀ (d2 d1 : List (String × AttrValue)), (d1.map Prod.fst).Nodup →
      ((dictUpdate d1 d2).map Prod.fst).Nodup := by
  intro d2
  induction d2 with
  | nil => intro d1 h; exact h
  | cons kv t ih =>
    intro d1 h
    show ((dictUpdate (setKey d1 kv.1 kv.2) t).map Prod.fst).Nodup
    exact ih _ (setKey_keys_nodup h)

theorem dropNone_keys_sublist (l : List (String × Option AttrValue)) :
    List.Sublist ((dropNone l).map Prod.fst) (l.map Prod.fst) := by
  induction l with
  | nil => simp [dropNone]
  | cons kv t ih =>
    obtain ⟨k1, o1⟩ := kv
    cases o1 with
    | none => simpa [dropNone] using ih.cons k1
    | some x => simpa [dropNone] using ih.cons₂ k1

theorem dictGet_filter_ne {α : Type} (k : String) (l : List (String × α)) :
    dictGet k (l.filter (fun kv => kv.1 ≠ k)) = none := by
  apply dictGet_eq_none_of_not_mem
  intro hmem
  obtain ⟨kv, hkv, hfst⟩ := List.mem_map.mp hmem
  have hne := List.of_mem_filter hkv
  simp only [decide_eq_true_eq] at hne
  exact hne (by rw [hfst])

/-- C6. On every key collision between the caller-supplied attribute
overrides and the extractor-derived mapping, the override value wins: it is
the value both in the returned `attributes` and in the stored document. The
`Nodup` hypothesis is the Python-dict invariant that the payload's
`attributes` keys are distinct. -/
theorem upsert_override_wins (p : ProductPayload) (now : String)
    (store : List (String × ProductDoc)) (k : String) (v : AttrValue)
    (hnodup : (p.attributes.map Prod.fst).Nodup)
    (hov : dictGet k (explicitAttrsOf p) = some v)
    (hder : dictGet k (extractAttributes p.name (descriptionOf p)) ≠ none) :
    dictGet k (upsertProduct p now store).2.2 = some v ∧
    ∃ doc, dictGet p.sku (upsertProduct p now store).1 = some doc ∧
      dictGet k doc = some v := by
  have hexp_nodup : ((explicitAttrsOf p).map Prod.fst).Nodup :=
    List.Nodup.sublist (dropNone_keys_sublist p.attributes) hnodup
  have hmerged : dictGet k (dictUpdate
      (extractAttributes p.name (descriptionOf p)) (explicitAttrsOf p)) = some v :=
    dictGet_dictUpdate_of_mem (explicitAttrsOf p) hexp_nodup hov _
  have hkmem : k ∈ EXTRACT_KEYS := by
    have hsome : (dictGet k (extractAttributes p.name (descriptionOf p))).isSome :=
      Option.ne_none_iff_isSome.mp hder
    exact (extract_keys_sublist p.name (descriptionOf p)).subset
      (mem_of_dictGet_isSome hsome)
  have hupd : k ≠ "updated_at" := by
    intro heq
    have : "updated_at" ∉ EXTRACT_KEYS := by decide
    exact this (heq ▸ hkmem)
  have hmerged_nodup : ((dictUpdate (extractAttributes p.name (descriptionOf p))
      (explicitAttrsOf p)).map Prod.fst).Nodup :=
    dictUpdate_keys_nodup _ _ (extract_keys_nodup p.name (descriptionOf p))
  constructor
  · exact hmerged
  · refine ⟨dictUpdate (dictUpdate (dropNone (payloadItems p))
      (dictUpdate (extractAttributes p.name (descriptionOf p)) (explicitAttrsOf p)))
      [("updated_at", .str now)], ?_, ?_⟩
    · show dictGet p.sku (store.filter (fun kv => kv.1 ≠ p.sku) ++ _) = _
      rw [dictGet_append, dictGet_filter_ne]
      simp [dictGet]
    · rw [dictGet_dictUpdate_not_mem (by simpa using hupd)]
      exact dictGet_dictUpdate_of_mem _ hmerged_nodup hmerged _

/-- C6 witness: the extractor derives `attr_volume_ml = 15.0` from the text
`"15 ml"`, the caller overrides it with `99`, and the override wins. -/
theorem upsert_override_wins_witness :
    dictGet "attr_volume_ml" (explicitAttrsOf c6Payload) = some (.num 99) ∧
    dictGet "attr_volume_ml"
      (extractAttributes c6Payload.name (descriptionOf c6Payload)) ≠ none ∧
    dictGet "attr_volume_ml" (upsertProduct c6Payload "T" []).2.2 =
      some (.num 99) :=
  ⟨by decide, by decide,
    (upsert_override_wins c6Payload "T" [] "attr_volume_ml" (.num 99)
      (by decide) (by decide) (by decide)).1⟩

/-! ### Fix-list ordering (C7) -/

theorem fixListLE_total (p q : ProductRow) : fixListLE p q ∨ fixListLE q p := by
  unfold fixListLE
  rcases lt_trichotomy (fixListLE.priceKey p) (fixListLE.priceKey q) with h | h | h
  · right; left; exact h
  · rcases le_total p.sku q.sku with hs | hs
    · left; right; exact ⟨h.symm, hs⟩
    · right; right; exact ⟨h, hs⟩
  · left; left; exact h

theorem fixListLE_trans {p q r : ProductRow} (h1 : fixListLE p q)
    (h2 : fixListLE q r) : fixListLE p r := by
  unfold fixListLE at h1 h2 ⊢
  rcases h1 with h1 | ⟨h1e, h1s⟩ <;> rcases h2 with h2 | ⟨h2e, h2s⟩
  · left; exact lt_trans h2 h1
  · left; rw [h2e]; exact h1
  · left; rw [← h1e]; exact h2
  · right; exact ⟨h2e.trans h1e, le_trans h1s h2s⟩

/-- C7. The fix list contains only products of the requested category lacking
the attribute, never more than `size` entries (`size` bounded 1–500 by the
API contract), and is sorted: price descending with missing prices last, ties
broken by SKU ascending. -/
theorem missing_fix_list_contract (attr cat : String) (size : ℕ)
    (prods : List ProductRow) (hlo : 1 ≤ size) (hhi : size ≤ 500) :
    (∀ p ∈ missingAttributeFixList attr cat size prods,
      p.category_main = cat ∧ attr ∉ p.attrs) ∧
    (missingAttributeFixList attr cat size prods).length ≤ size ∧
    List.Pairwise fixListLE (missingAttributeFixList attr cat size prods) := by
  refine ⟨?_, List.length_take_le _ _, ?_⟩
  · intro p hp
    have hp2 : p ∈ (prods.filter
        (fun p => p.category_main = cat ∧ attr ∉ p.attrs)).mergeSort
        (fun p q => decide (fixListLE p q)) := List.take_subset _ _ hp
    have hp3 := List.mem_mergeSort.mp hp2
    have hp4 := List.of_mem_filter hp3
    simpa using hp4
  · have hsorted := @List.sorted_mergeSort ProductRow
      (fun p q => decide (fixListLE p q))
      (fun a b c hab hbc => by
        simp only [decide_eq_true_eq] at hab hbc ⊢
        exact fixListLE_trans hab hbc)
      (fun a b => by
        simp only [Bool.or_eq_true, decide_eq_true_eq]
        exact fixListLE_total a b)
      (prods.filter (fun p => p.category_main = cat ∧ attr ∉ p.attrs))
    have hsorted2 : List.Pairwise fixListLE ((prods.filter
        (fun p => p.category_main = cat ∧ attr ∉ p.attrs)).mergeSort
        (fun p q => decide (fixListLE p q))) := by
      refine hsorted.imp ?_
      intro a b hab
      simpa using hab
    exact List.Pairwise.sublist (List.take_sublist _ _) hsorted2

/-- C7 witness. -/
theorem missing_fix_list_contract_witness :
    1 ≤ 50 ∧ (50 : ℕ) ≤ 500 ∧
    (∀ p ∈ missingAttributeFixList "attr_x" "Gel" 50 c7SampleProducts,
      p.category_main = "Gel" ∧ "attr_x" ∉ p.attrs) ∧
    (missingAttributeFixList "attr_x" "Gel" 50 c7SampleProducts).length ≤ 50 :=
  ⟨by decide, by decide,
    (missing_fix_list_contract "attr_x" "Gel" 50 c7SampleProducts
      (by decide) (by decide)).1,
    (missing_fix_list_contract "attr_x" "Gel" 50 c7SampleProducts
      (by decide) (by decide)).2.1⟩

end ECommerce
